import Mathlib

/-!
# Verification of the benchmark-and-regression-check harness

Shallow embedding of `src/llmchess/benchmark.py` (class `BenchmarkHarness`).
Python floats are modelled as rationals (`ℚ`), Python lists as `List ℚ`,
fallible Python operations as `Except PyErr`, and the file system seen by
`save_results` / `check_regression` as a map `String → Option FileData`.
-/

namespace LLMChess

/-- Python exception classes that the embedded code can raise. -/
inductive PyErr where
  | indexError       -- list index out of range
  | keyError         -- dict[key] with a missing key
  | typeError        -- arithmetic on a non-numeric value
  | valueError       -- raise ValueError(...)
  | statisticsError  -- statistics.StatisticsError (empty data)
  | jsonDecodeError  -- json.JSONDecodeError (subclass of ValueError)
  deriving DecidableEq, Repr

/-- A JSON scalar-or-array value as stored in the benchmark/baseline files.
The harness only ever stores numbers and one list of numbers. -/
inductive JVal where
  | num (q : ℚ)
  | list (l : List ℚ)
  deriving DecidableEq, Repr

/-- Contents of a file on disk, as far as `json.load` is concerned:
either text that fails to parse, or a parsed JSON object. -/
inductive FileData where
  | invalidJson
  | object (fields : List (String × JVal))
  deriving DecidableEq, Repr

/-- `json.load` on an open file: parse error or the object. -/
def jsonLoad : FileData → Except PyErr (List (String × JVal))
  | .invalidJson => .error .jsonDecodeError
  | .object fields => .ok fields

/-- Python `d[key]` on a dict (modelled as an association list):
`KeyError` when the key is absent. -/
def dictGet (fields : List (String × JVal)) (key : String) : Except PyErr JVal :=
  match fields.lookup key with
  | some v => .ok v
  | none => .error .keyError

/-- Python `int(x)`: truncation toward zero. -/
def pyInt (q : ℚ) : ℤ :=
  if 0 ≤ q then ⌊q⌋ else ⌈q⌉

/-- Python list indexing `l[i]`: negative indices count from the end,
out-of-range indices raise `IndexError`. -/
def pyIndex (l : List ℚ) (i : ℤ) : Except PyErr ℚ :=
  let j : ℤ := if i < 0 then i + (l.length : ℤ) else i
  if 0 ≤ j ∧ j < (l.length : ℤ) then .ok (l.getD j.toNat 0)
  else .error .indexError

/-- `BenchmarkHarness._percentile(data, percentile)` (benchmark.py lines 61-81):
sort, compute the fractional rank, interpolate linearly between the two
nearest ranks, clamping at the top.  Indexing is fallible exactly where the
Python indexing is. -/
def percentileE (data : List ℚ) (percentile : ℚ) : Except PyErr ℚ :=
  let sorted_data := data.insertionSort (· ≤ ·)
  let index : ℚ := (percentile / 100) * ((sorted_data.length : ℚ) - 1)
  let lower : ℤ := pyInt index
  let upper : ℤ := lower + 1
  let weight : ℚ := index - (lower : ℚ)
  if upper ≥ (sorted_data.length : ℤ) then
    pyIndex sorted_data (-1)
  else do
    let lo ← pyIndex sorted_data lower
    let hi ← pyIndex sorted_data upper
    pure (lo * (1 - weight) + hi * weight)

/-- The percentile estimator as the spec words it (§4.1 of the spec):
sort ascending, `index = (p/100)*(n-1)`, `lower = floor(index)`,
`upper = lower+1`, `weight = index-lower`; `data[n-1]` when `upper >= n`,
else `data[lower]*(1-weight) + data[upper]*weight`.  Stated with total
indexing; compared with `percentileE`, the embedding of the source. -/
def percentileSpec (data : List ℚ) (p : ℚ) : ℚ :=
  let sorted := data.insertionSort (· ≤ ·)
  let n := sorted.length
  let index : ℚ := (p / 100) * ((n : ℚ) - 1)
  let lower : ℤ := ⌊index⌋
  let upper : ℤ := lower + 1
  let weight : ℚ := index - (lower : ℚ)
  if upper ≥ (n : ℤ) then sorted.getD (n - 1) 0
  else sorted.getD lower.toNat 0 * (1 - weight) + sorted.getD upper.toNat 0 * weight

/-- The interpolation step of the percentile estimator, as a total function of
the sorted data and the fractional rank `i`: floor, weight, clamp at the top,
else linear interpolation.  For nonempty data and `0 ≤ p`, `percentileE`
agrees with `interpIdx` of the sorted data at `i = (p/100)*(n-1)`. -/
def interpIdx (s : List ℚ) (i : ℚ) : ℚ :=
  let lower : ℤ := ⌊i⌋
  let weight : ℚ := i - (lower : ℚ)
  if lower + 1 ≥ (s.length : ℤ) then s.getD (s.length - 1) 0
  else s.getD lower.toNat 0 * (1 - weight) + s.getD (lower + 1).toNat 0 * weight

/-- Python `statistics.mean`: raises on empty data, else the arithmetic mean. -/
def pyMean (l : List ℚ) : Except PyErr ℚ :=
  if l.length = 0 then .error .statisticsError
  else .ok (l.sum / (l.length : ℚ))

/-- Python `statistics.median`: raises on empty data; middle element for odd
length, average of the two middle elements for even length. -/
def pyMedian (l : List ℚ) : Except PyErr ℚ :=
  let n := l.length
  if n = 0 then .error .statisticsError
  else
    let s := l.insertionSort (· ≤ ·)
    if n % 2 = 1 then .ok (s.getD (n / 2) 0)
    else .ok ((s.getD (n / 2 - 1) 0 + s.getD (n / 2) 0) / 2)

/-- Python `min(l)`: raises `ValueError` on an empty sequence. -/
def pyMinE (l : List ℚ) : Except PyErr ℚ :=
  match l with
  | [] => .error .valueError
  | x :: xs => .ok (xs.foldl min x)

/-- Python `max(l)`: raises `ValueError` on an empty sequence. -/
def pyMaxE (l : List ℚ) : Except PyErr ℚ :=
  match l with
  | [] => .error .valueError
  | x :: xs => .ok (xs.foldl max x)

/-- The square of `statistics.stdev l`: the Bessel-corrected sample variance
`Σ (x - mean)² / (n - 1)`.  The square root leaves `ℚ`, so the embedding
carries the variance; no claim concerns the `stdev` value itself. -/
def sampleVariance (l : List ℚ) : ℚ :=
  (l.map (fun x => (x - l.sum / (l.length : ℚ)) ^ 2)).sum / ((l.length : ℚ) - 1)

/-- The `_results_dict` built by `run_benchmark` (benchmark.py lines 46-57).
`stdevSq` holds the square of the stored `stdev` field. -/
structure ResultsDict where
  num_iterations : ℕ
  mock_response_time : ℚ
  latencies : List ℚ
  mean : ℚ
  median : ℚ
  stdevSq : ℚ
  min : ℚ
  max : ℚ
  p95 : ℚ
  p99 : ℚ
  deriving DecidableEq, Repr

/-- The statistics-building tail of `run_benchmark` (benchmark.py lines 46-57),
parametrised by the measured latencies (the wall-clock samples themselves are
nondeterministic timing data; every claim quantifies over them).  Fields are
computed in source order, so on empty data the error is the one
`statistics.mean` raises. -/
def run_benchmark_stats (num_iterations : ℕ) (mock_response_time : ℚ)
    (latencies : List ℚ) : Except PyErr ResultsDict := do
  let mean ← pyMean latencies
  let median ← pyMedian latencies
  let stdevSq := if 1 < latencies.length then sampleVariance latencies else 0
  let mn ← pyMinE latencies
  let mx ← pyMaxE latencies
  let p95 ← percentileE latencies 95
  let p99 ← percentileE latencies 99
  pure { num_iterations := num_iterations, mock_response_time := mock_response_time,
         latencies := latencies, mean := mean, median := median, stdevSq := stdevSq,
         min := mn, max := mx, p95 := p95, p99 := p99 }

/-- Round a rational to the nearest integer, ties to even
(the rounding used by Python float formatting). -/
def roundHalfEven (q : ℚ) : ℤ :=
  let f := ⌊q⌋
  let r := q - (f : ℚ)
  if r < 1 / 2 then f
  else if 1 / 2 < r then f + 1
  else if f % 2 = 0 then f else f + 1

/-- Python fixed-point formatting `f"{q:.prec f}"` on the rational embedding:
round to `prec` decimal places, render sign, integer part, point, and the
zero-padded fractional digits. -/
def fmtFixed (prec : ℕ) (q : ℚ) : String :=
  let scaled := roundHalfEven (q * (10 : ℚ) ^ prec)
  let sign := if scaled < 0 then "-" else ""
  let a := scaled.natAbs
  let ip := a / 10 ^ prec
  let fp := a % 10 ^ prec
  let fs := toString fp
  sign ++ toString ip ++ "." ++ String.mk (List.replicate (prec - fs.length) '0') ++ fs

/-- Python `f"{q}"` for the (non-load-bearing) threshold interpolation;
the decimal rendering of a float differs in spelling but not in content. -/
def pyStr (q : ℚ) : String :=
  toString q

/-- The JSON object `save_results` writes (the `_results_dict`, with `stdev`
represented by its square as in `ResultsDict`). -/
def serializeResults (r : ResultsDict) : FileData :=
  .object [("num_iterations", .num (r.num_iterations : ℚ)),
           ("mock_response_time", .num r.mock_response_time),
           ("latencies", .list r.latencies),
           ("mean", .num r.mean),
           ("median", .num r.median),
           ("stdev", .num r.stdevSq),
           ("min", .num r.min),
           ("max", .num r.max),
           ("p95", .num r.p95),
           ("p99", .num r.p99)]

/-- `BenchmarkHarness.save_results` (benchmark.py lines 83-93): raise
`ValueError` when `_results_dict` is unset — this happens before the file is
opened, so an error return leaves the file system untouched — else write the
serialized record at `filepath`. -/
def save_results (results : Option ResultsDict) (fs : String → Option FileData)
    (filepath : String) : Except PyErr (String → Option FileData) :=
  match results with
  | none => .error .valueError
  | some r => .ok (fun p => if p = filepath then some (serializeResults r) else fs p)

/-- `BenchmarkHarness.check_regression` (benchmark.py lines 95-136).
`results` is `self._results_dict`, `fs` the file system (`none` at a path
means `baseline_filepath.exists()` is false).  A `.list` under `"mean"`
passes the `== 0` test (false for Python lists) and then raises `TypeError`
at the subtraction, hence the `.error .typeError` arm. -/
def check_regression (results : Option ResultsDict) (fs : String → Option FileData)
    (baseline_filepath : String) (threshold_percent : ℚ) : Except PyErr (Bool × String) :=
  match results with
  | none => .ok (false, "No benchmark results available. Run benchmark first.")
  | some r =>
    match fs baseline_filepath with
    | none => .ok (true, "No baseline found at " ++ baseline_filepath ++ ". Creating baseline.")
    | some fd => do
      let baseline ← jsonLoad fd
      let current_mean := r.mean
      let baseline_mean ← dictGet baseline "mean"
      match baseline_mean with
      | .list _ => .error .typeError
      | .num b =>
        if b = 0 then .ok (false, "Invalid baseline: mean latency is zero")
        else
          let percent_change := ((current_mean - b) / b) * 100
          if percent_change > threshold_percent then
            .ok (false, "Performance regression detected! Mean latency increased by " ++
              fmtFixed 2 percent_change ++ "% (baseline: " ++ fmtFixed 4 b ++
              "s, current: " ++ fmtFixed 4 current_mean ++ "s, threshold: " ++
              pyStr threshold_percent ++ "%)")
          else
            .ok (true, "Performance check passed. Mean latency change: " ++
              fmtFixed 2 percent_change ++ "% (baseline: " ++ fmtFixed 4 b ++
              "s, current: " ++ fmtFixed 4 current_mean ++ "s)")

/-- A concrete single-sample results record (all statistics equal to `m`),
used to instantiate witnesses. -/
def sampleRecord (m : ℚ) : ResultsDict :=
  { num_iterations := 1, mock_response_time := 1/20, latencies := [m], mean := m,
    median := m, stdevSq := 0, min := m, max := m, p95 := m, p99 := m }

/-! ## Theorems about `check_regression` and `save_results` -/

/-- C9: calling `check_regression` before any successful `run_benchmark`
(no `_results_dict`) returns a non-passing verdict with an explanatory
message and does not raise, for every file system, baseline path and
threshold. -/
theorem check_regression_before_run_nonpassing (fs : String → Option FileData)
    (path : String) (t : ℚ) :
    check_regression none fs path t =
      .ok (false, "No benchmark results available. Run benchmark first.") := rfl

/-- C8: calling `save_results` before any successful `run_benchmark` raises a
`ValueError` (a StateError-class failure); the raise happens before the output
file is opened, so no file is created or modified (an `.error` return carries
no updated file system). -/
theorem save_results_before_run_raises (fs : String → Option FileData)
    (path : String) :
    save_results none fs path = .error .valueError := rfl

/-- C6: when the baseline path does not reference an existing file,
`check_regression` (with a current results record present) returns
`passed = true` with a message noting the absence of a baseline, for every
current record and threshold. -/
theorem check_regression_no_baseline_passes (r : ResultsDict)
    (fs : String → Option FileData) (path : String) (t : ℚ)
    (hfs : fs path = none) :
    check_regression (some r) fs path t =
      .ok (true, "No baseline found at " ++ path ++ ". Creating baseline.") := by
  simp [check_regression, hfs]

/-- Witness for `check_regression_no_baseline_passes` at a concrete record,
empty file system, path and threshold. -/
theorem check_regression_no_baseline_passes_witness :
    ((fun _ : String => (none : Option FileData)) "base.json" = none) ∧
    check_regression (some (sampleRecord 1))
      (fun _ => none) "base.json" 10 =
      .ok (true, "No baseline found at " ++ "base.json" ++ ". Creating baseline.") :=
  ⟨rfl, check_regression_no_baseline_passes _ _ _ _ rfl⟩

/-- C7: when the loaded baseline object has `mean == 0`, `check_regression`
returns `passed = false` with an invalid-baseline message, for every current
record and threshold; the zero test precedes the division, so no
division-by-zero fault can occur. -/
theorem check_regression_zero_baseline_fails (r : ResultsDict)
    (fs : String → Option FileData) (path : String) (t : ℚ)
    (fields : List (String × JVal))
    (hfs : fs path = some (.object fields))
    (hm : fields.lookup "mean" = some (.num 0)) :
    check_regression (some r) fs path t =
      .ok (false, "Invalid baseline: mean latency is zero") := by
  simp [check_regression, hfs, jsonLoad, dictGet, hm, Except.bind, bind]

/-- Witness for `check_regression_zero_baseline_fails` at a concrete record,
baseline file and threshold. -/
theorem check_regression_zero_baseline_fails_witness :
    ((fun p : String => if p = "base.json"
        then some (FileData.object [("mean", JVal.num 0)]) else none) "base.json" =
      some (FileData.object [("mean", JVal.num 0)])) ∧
    ([("mean", JVal.num 0)].lookup "mean" = some (JVal.num 0)) ∧
    check_regression (some (sampleRecord 2))
      (fun p => if p = "base.json"
        then some (FileData.object [("mean", JVal.num 0)]) else none) "base.json" 10 =
      .ok (false, "Invalid baseline: mean latency is zero") :=
  ⟨by simp, by simp [List.lookup],
   check_regression_zero_baseline_fails (sampleRecord 2) _ "base.json" 10
     [("mean", JVal.num 0)] (by simp) (by simp [List.lookup])⟩

/-- C10: when the baseline file exists but is not valid JSON, or parses to an
object without a `"mean"` key, `check_regression` raises (a JSON decode error
resp. a `KeyError`) instead of returning a verdict. -/
theorem check_regression_malformed_baseline_raises (r : ResultsDict)
    (fs fs' : String → Option FileData) (path : String) (t : ℚ)
    (fields : List (String × JVal))
    (hfs : fs path = some (.object fields)) (hk : fields.lookup "mean" = none)
    (hfs' : fs' path = some .invalidJson) :
    check_regression (some r) fs path t = .error .keyError ∧
    check_regression (some r) fs' path t = .error .jsonDecodeError := by
  constructor
  · simp [check_regression, hfs, jsonLoad, dictGet, hk, Except.bind, bind]
  · simp [check_regression, hfs', jsonLoad, Except.bind, bind]

/-- Witness for `check_regression_malformed_baseline_raises` at concrete
baseline files: an object `{"median": 1}` without a mean, and unparsable text. -/
theorem check_regression_malformed_baseline_raises_witness :
    ((fun p : String => if p = "b.json"
        then some (FileData.object [("median", JVal.num 1)]) else none) "b.json" =
      some (FileData.object [("median", JVal.num 1)])) ∧
    ([("median", JVal.num 1)].lookup "mean" = none) ∧
    ((fun _ : String => some FileData.invalidJson) "b.json" = some FileData.invalidJson) ∧
    (check_regression (some (sampleRecord 2))
      (fun p => if p = "b.json"
        then some (FileData.object [("median", JVal.num 1)]) else none) "b.json" 10 =
        .error .keyError ∧
     check_regression (some (sampleRecord 2))
      (fun _ => some FileData.invalidJson) "b.json" 10 = .error .jsonDecodeError) :=
  ⟨by simp, by simp [List.lookup], rfl,
   check_regression_malformed_baseline_raises (sampleRecord 2) _ _ "b.json" 10
     [("median", JVal.num 1)] (by simp) (by simp [List.lookup]) rfl⟩

/-- `String.append` is associative (componentwise `List.append_assoc`). -/
theorem str_append_assoc (a b c : String) : a ++ b ++ c = a ++ (b ++ c) := by
  rcases a with ⟨a⟩; rcases b with ⟨b⟩; rcases c with ⟨c⟩
  show String.mk ((a ++ b) ++ c) = String.mk (a ++ (b ++ c))
  rw [List.append_assoc]

/-- C2: with a current record present, an existing baseline file, and a
baseline mean `b ≠ 0`, `check_regression` computes
`percent_change = (current.mean - b)/b * 100` and returns
`passed = (percent_change ≤ threshold)` — so equality with the threshold
passes — and the message contains the formatted percent change and both
means. -/
theorem check_regression_percent_change (r : ResultsDict)
    (fs : String → Option FileData) (path : String) (t : ℚ)
    (fields : List (String × JVal)) (b : ℚ)
    (hfs : fs path = some (.object fields))
    (hm : fields.lookup "mean" = some (.num b)) (hb : b ≠ 0) :
    ∃ msg : String,
      check_regression (some r) fs path t =
        .ok (decide (((r.mean - b) / b) * 100 ≤ t), msg) ∧
      ∃ s1 s2 s3 s4, msg = s1 ++ fmtFixed 2 (((r.mean - b) / b) * 100) ++ s2 ++
        fmtFixed 4 b ++ s3 ++ fmtFixed 4 r.mean ++ s4 := by
  have hcr : check_regression (some r) fs path t =
      if ((r.mean - b) / b) * 100 > t then
        .ok (false, "Performance regression detected! Mean latency increased by " ++
          fmtFixed 2 (((r.mean - b) / b) * 100) ++ "% (baseline: " ++ fmtFixed 4 b ++
          "s, current: " ++ fmtFixed 4 r.mean ++ "s, threshold: " ++
          pyStr t ++ "%)")
      else
        .ok (true, "Performance check passed. Mean latency change: " ++
          fmtFixed 2 (((r.mean - b) / b) * 100) ++ "% (baseline: " ++ fmtFixed 4 b ++
          "s, current: " ++ fmtFixed 4 r.mean ++ "s)") := by
    simp [check_regression, hfs, jsonLoad, dictGet, hm, hb, Except.bind, bind]
  by_cases hc : ((r.mean - b) / b) * 100 > t
  · refine ⟨"Performance regression detected! Mean latency increased by " ++
      fmtFixed 2 (((r.mean - b) / b) * 100) ++ "% (baseline: " ++ fmtFixed 4 b ++
      "s, current: " ++ fmtFixed 4 r.mean ++ "s, threshold: " ++
      pyStr t ++ "%)", ?_, ?_⟩
    · rw [hcr, if_pos hc, decide_eq_false (not_le.mpr hc)]
    · exact ⟨"Performance regression detected! Mean latency increased by ",
        "% (baseline: ", "s, current: ",
        "s, threshold: " ++ pyStr t ++ "%)", by simp [str_append_assoc]⟩
  · refine ⟨"Performance check passed. Mean latency change: " ++
      fmtFixed 2 (((r.mean - b) / b) * 100) ++ "% (baseline: " ++ fmtFixed 4 b ++
      "s, current: " ++ fmtFixed 4 r.mean ++ "s)", ?_, ?_⟩
    · rw [hcr, if_neg hc, decide_eq_true (not_lt.mp hc)]
    · exact ⟨"Performance check passed. Mean latency change: ",
        "% (baseline: ", "s, current: ", "s)", by simp [str_append_assoc]⟩

/-- Witness for `check_regression_percent_change`: current mean 6, baseline
mean 5, threshold 20 — the percent change is exactly 20, the boundary case,
which passes. -/
theorem check_regression_percent_change_witness :
    ((fun p : String => if p = "base.json"
        then some (FileData.object [("mean", JVal.num 5)]) else none) "base.json" =
      some (FileData.object [("mean", JVal.num 5)])) ∧
    ([("mean", JVal.num 5)].lookup "mean" = some (JVal.num 5)) ∧
    ((5 : ℚ) ≠ 0) ∧
    (∃ msg : String,
      check_regression (some (sampleRecord 6))
        (fun p => if p = "base.json"
          then some (FileData.object [("mean", JVal.num 5)]) else none) "base.json" 20 =
        .ok (decide ((((sampleRecord 6).mean - 5) / 5) * 100 ≤ 20), msg) ∧
      ∃ s1 s2 s3 s4, msg = s1 ++ fmtFixed 2 ((((sampleRecord 6).mean - 5) / 5) * 100) ++
        s2 ++ fmtFixed 4 5 ++ s3 ++ fmtFixed 4 (sampleRecord 6).mean ++ s4) :=
  ⟨by simp, by simp [List.lookup], by norm_num,
   check_regression_percent_change (sampleRecord 6) _ "base.json" 20
     [("mean", JVal.num 5)] 5 (by simp) (by simp [List.lookup]) (by norm_num)⟩

/-! ## Helper lemmas for the percentile estimator -/

/-- Python indexing into a list at a nonnegative in-range index. -/
theorem pyIndex_ok (l : List ℚ) (i : ℤ) (h0 : 0 ≤ i) (h : i < (l.length : ℤ)) :
    pyIndex l i = .ok (l.getD i.toNat 0) := by
  simp only [pyIndex]
  rw [if_neg (not_lt.mpr h0), if_pos ⟨h0, h⟩]

/-- Python `l[-1]` on a nonempty list is its last element. -/
theorem pyIndex_last (l : List ℚ) (h : l ≠ []) :
    pyIndex l (-1) = .ok (l.getD (l.length - 1) 0) := by
  have hpos : 0 < l.length := List.length_pos.mpr h
  simp only [pyIndex]
  have h1 : (-1 : ℤ) < 0 := by omega
  rw [if_pos h1]
  have h2 : (0:ℤ) ≤ -1 + (l.length : ℤ) ∧ -1 + (l.length : ℤ) < (l.length : ℤ) := by omega
  rw [if_pos h2]
  congr 2
  omega

/-- Python indexing into the empty list always raises `IndexError`. -/
theorem pyIndex_err_nil (i : ℤ) : pyIndex [] i = .error .indexError := by
  simp only [pyIndex, List.length_nil, Nat.cast_zero]
  by_cases h : i < 0
  · rw [if_pos h]
    have : ¬ ((0:ℤ) ≤ i + 0 ∧ i + 0 < 0) := by omega
    rw [if_neg this]
  · rw [if_neg h]
    have : ¬ ((0:ℤ) ≤ i ∧ i < 0) := by omega
    rw [if_neg this]

/-- On nonempty data and nonnegative `p`, `_percentile` succeeds and equals
the interpolation function of the sorted data at rank `(p/100)*(n-1)`. -/
theorem percentileE_eq_interpIdx (data : List ℚ) (p : ℚ) (hne : data ≠ []) (hp : 0 ≤ p) :
    percentileE data p =
      .ok (interpIdx (data.insertionSort (· ≤ ·))
        ((p / 100) * (((data.insertionSort (· ≤ ·)).length : ℚ) - 1))) := by
  have hpos : 0 < (data.insertionSort (· ≤ ·)).length := by
    rw [List.length_insertionSort]; exact List.length_pos.mpr hne
  have hsne : data.insertionSort (· ≤ ·) ≠ [] := List.length_pos.mp hpos
  simp only [percentileE, interpIdx]
  set s := data.insertionSort (· ≤ ·) with hs
  set idx : ℚ := (p / 100) * ((s.length : ℚ) - 1) with hidx
  have hidx0 : 0 ≤ idx := by
    apply mul_nonneg (by positivity)
    have : (1:ℚ) ≤ (s.length : ℚ) := by exact_mod_cast hpos
    linarith
  have hpyInt : pyInt idx = ⌊idx⌋ := by rw [pyInt, if_pos hidx0]
  have hfl0 : (0:ℤ) ≤ ⌊idx⌋ := Int.floor_nonneg.mpr hidx0
  rw [hpyInt]
  by_cases hcl : (⌊idx⌋ + 1 : ℤ) ≥ (s.length : ℤ)
  · rw [if_pos hcl, if_pos hcl, pyIndex_last s hsne]
  · rw [if_neg hcl, if_neg hcl]
    have hlt : ⌊idx⌋ + 1 < (s.length : ℤ) := by omega
    rw [pyIndex_ok s ⌊idx⌋ hfl0 (by omega), pyIndex_ok s (⌊idx⌋ + 1) (by omega) hlt]
    rfl

/-- The spec-worded percentile is the same interpolation function. -/
theorem percentileSpec_eq_interpIdx (data : List ℚ) (p : ℚ) :
    percentileSpec data p =
      interpIdx (data.insertionSort (· ≤ ·))
        ((p / 100) * (((data.insertionSort (· ≤ ·)).length : ℚ) - 1)) := rfl

/-- Elements of a sorted list are monotone in the index. -/
theorem sorted_getD_mono (s : List ℚ) (hs : s.Sorted (· ≤ ·)) (i j : ℕ)
    (hij : i ≤ j) (hj : j < s.length) : s.getD i 0 ≤ s.getD j 0 := by
  have hi : i < s.length := lt_of_le_of_lt hij hj
  rw [List.getD_eq_getElem _ _ hi, List.getD_eq_getElem _ _ hj]
  have h := hs.rel_get_of_le (Fin.mk_le_mk.mpr hij : (⟨i, hi⟩ : Fin s.length) ≤ ⟨j, hj⟩)
  simpa [List.get_eq_getElem] using h

/-- A convex combination of `x ≤ y` is at least `x`. -/
theorem convex_le_left (x y w : ℚ) (hxy : x ≤ y) (h0 : 0 ≤ w) (h1 : w ≤ 1) :
    x ≤ x * (1 - w) + y * w := by nlinarith

/-- A convex combination of `x ≤ y` is at most `y`. -/
theorem convex_le_right (x y w : ℚ) (hxy : x ≤ y) (h0 : 0 ≤ w) (h1 : w ≤ 1) :
    x * (1 - w) + y * w ≤ y := by nlinarith

/-- The interpolation function is monotone in the rank on sorted data. -/
theorem interpIdx_mono (s : List ℚ) (hs : s.Sorted (· ≤ ·)) (hne : s ≠ [])
    (i j : ℚ) (h0 : 0 ≤ i) (hij : i ≤ j) : interpIdx s i ≤ interpIdx s j := by
  have hpos : 0 < s.length := List.length_pos.mpr hne
  have hfa0 : (0:ℤ) ≤ ⌊i⌋ := Int.floor_nonneg.mpr h0
  have hfab : ⌊i⌋ ≤ ⌊j⌋ := Int.floor_le_floor hij
  have hwi0 : (0:ℚ) ≤ i - ⌊i⌋ := by have := Int.floor_le i; linarith
  have hwi1 : i - (⌊i⌋:ℚ) ≤ 1 := by have := Int.lt_floor_add_one i; push_cast at this ⊢; linarith
  have hwj0 : (0:ℚ) ≤ j - ⌊j⌋ := by have := Int.floor_le j; linarith
  have hwj1 : j - (⌊j⌋:ℚ) ≤ 1 := by have := Int.lt_floor_add_one j; push_cast at this ⊢; linarith
  simp only [interpIdx]
  by_cases hA : ⌊i⌋ + 1 ≥ (s.length : ℤ)
  · have hB : ⌊j⌋ + 1 ≥ (s.length : ℤ) := by omega
    rw [if_pos hA, if_pos hB]
  · rw [if_neg hA]
    have hfa1 : ⌊i⌋ + 1 < (s.length : ℤ) := by omega
    have hA01 : s.getD (⌊i⌋).toNat 0 ≤ s.getD (⌊i⌋ + 1).toNat 0 :=
      sorted_getD_mono s hs _ _ (by omega) (by omega)
    by_cases hB : ⌊j⌋ + 1 ≥ (s.length : ℤ)
    · rw [if_pos hB]
      calc s.getD (⌊i⌋).toNat 0 * (1 - (i - ⌊i⌋)) + s.getD (⌊i⌋ + 1).toNat 0 * (i - ⌊i⌋)
          ≤ s.getD (⌊i⌋ + 1).toNat 0 := convex_le_right _ _ _ hA01 hwi0 hwi1
        _ ≤ s.getD (s.length - 1) 0 := sorted_getD_mono s hs _ _ (by omega) (by omega)
    · rw [if_neg hB]
      have hfb1 : ⌊j⌋ + 1 < (s.length : ℤ) := by omega
      have hB01 : s.getD (⌊j⌋).toNat 0 ≤ s.getD (⌊j⌋ + 1).toNat 0 :=
        sorted_getD_mono s hs _ _ (by omega) (by omega)
      by_cases hEq : ⌊i⌋ = ⌊j⌋
      · rw [hEq]
        have hij' : i - (⌊j⌋:ℚ) ≤ j - ⌊j⌋ := by linarith
        nlinarith [hB01, hij']
      · have hfab' : ⌊i⌋ + 1 ≤ ⌊j⌋ := by omega
        calc s.getD (⌊i⌋).toNat 0 * (1 - (i - ⌊i⌋)) + s.getD (⌊i⌋ + 1).toNat 0 * (i - ⌊i⌋)
            ≤ s.getD (⌊i⌋ + 1).toNat 0 := convex_le_right _ _ _ hA01 hwi0 hwi1
          _ ≤ s.getD (⌊j⌋).toNat 0 := sorted_getD_mono s hs _ _ (by omega) (by omega)
          _ ≤ s.getD (⌊j⌋).toNat 0 * (1 - (j - ⌊j⌋)) + s.getD (⌊j⌋ + 1).toNat 0 * (j - ⌊j⌋) :=
            convex_le_left _ _ _ hB01 hwj0 hwj1

/-- `foldl min` over a list yields one of its elements (or the seed). -/
theorem foldl_min_mem (xs : List ℚ) : ∀ x : ℚ, xs.foldl min x ∈ x :: xs := by
  induction xs with
  | nil => intro x; simp
  | cons y ys ih =>
    intro x
    have h := ih (min x y)
    rcases List.mem_cons.mp h with h1 | h1
    · rcases min_choice x y with hm | hm
      · rw [List.foldl_cons, h1, hm]; exact List.mem_cons_self _ _
      · rw [List.foldl_cons, h1, hm]
        exact List.mem_cons_of_mem _ (List.mem_cons_self _ _)
    · rw [List.foldl_cons]
      exact List.mem_cons_of_mem _ (List.mem_cons_of_mem _ h1)

/-- `foldl min` is a lower bound of the seed and all elements. -/
theorem foldl_min_le (xs : List ℚ) : ∀ x : ℚ, ∀ y ∈ x :: xs, xs.foldl min x ≤ y := by
  induction xs with
  | nil => intro x y hy; simp at hy; simp [hy]
  | cons z zs ih =>
    intro x y hy
    rw [List.foldl_cons]
    rcases List.mem_cons.mp hy with h1 | h1
    · rw [h1]
      have := ih (min x z) (min x z) (List.mem_cons_self _ _)
      exact le_trans this (min_le_left _ _)
    · rcases List.mem_cons.mp h1 with h2 | h2
      · rw [h2]
        have := ih (min x z) (min x z) (List.mem_cons_self _ _)
        exact le_trans this (min_le_right _ _)
      · exact ih (min x z) y (List.mem_cons_of_mem _ h2)

/-- `foldl max` over a list yields one of its elements (or the seed). -/
theorem foldl_max_mem (xs : List ℚ) : ∀ x : ℚ, xs.foldl max x ∈ x :: xs := by
  induction xs with
  | nil => intro x; simp
  | cons y ys ih =>
    intro x
    have h := ih (max x y)
    rcases List.mem_cons.mp h with h1 | h1
    · rcases max_choice x y with hm | hm
      · rw [List.foldl_cons, h1, hm]; exact List.mem_cons_self _ _
      · rw [List.foldl_cons, h1, hm]
        exact List.mem_cons_of_mem _ (List.mem_cons_self _ _)
    · rw [List.foldl_cons]
      exact List.mem_cons_of_mem _ (List.mem_cons_of_mem _ h1)

/-- `foldl max` is an upper bound of the seed and all elements. -/
theorem le_foldl_max (xs : List ℚ) : ∀ x : ℚ, ∀ y ∈ x :: xs, y ≤ xs.foldl max x := by
  induction xs with
  | nil => intro x y hy; simp at hy; simp [hy]
  | cons z zs ih =>
    intro x y hy
    rw [List.foldl_cons]
    rcases List.mem_cons.mp hy with h1 | h1
    · rw [h1]
      have := ih (max x z) (max x z) (List.mem_cons_self _ _)
      exact le_trans (le_max_left _ _) this
    · rcases List.mem_cons.mp h1 with h2 | h2
      · rw [h2]
        have := ih (max x z) (max x z) (List.mem_cons_self _ _)
        exact le_trans (le_max_right _ _) this
      · exact ih (max x z) y (List.mem_cons_of_mem _ h2)

/-- The head of a sorted list bounds every member from below. -/
theorem sorted_getD_zero_le (s : List ℚ) (hs : s.Sorted (· ≤ ·)) (y : ℚ) (hy : y ∈ s) :
    s.getD 0 0 ≤ y := by
  obtain ⟨i, hi⟩ := List.mem_iff_get.mp hy
  have h := sorted_getD_mono s hs 0 i (Nat.zero_le _) i.isLt
  rw [List.getD_eq_getElem _ _ i.isLt] at h
  rw [← hi, List.get_eq_getElem]
  exact h

/-- The last element of a sorted list bounds every member from above. -/
theorem sorted_le_getD_last (s : List ℚ) (hs : s.Sorted (· ≤ ·)) (y : ℚ) (hy : y ∈ s) :
    y ≤ s.getD (s.length - 1) 0 := by
  obtain ⟨i, hi⟩ := List.mem_iff_get.mp hy
  have hpos : 0 < s.length := List.length_pos.mpr (List.ne_nil_of_mem hy)
  have h := sorted_getD_mono s hs i (s.length - 1) (by omega) (by omega)
  rw [List.getD_eq_getElem _ _ i.isLt] at h
  rw [← hi, List.get_eq_getElem]
  exact h

/-- The head of the sorted list is Python's `min` of the data. -/
theorem sorted_getD_zero_eq_min (x : ℚ) (xs : List ℚ) :
    ((x :: xs).insertionSort (· ≤ ·)).getD 0 0 = xs.foldl min x := by
  set s := (x :: xs).insertionSort (· ≤ ·) with hsdef
  have hs : s.Sorted (· ≤ ·) := List.sorted_insertionSort _ _
  have hperm : List.Perm s (x :: xs) := List.perm_insertionSort _ _
  have hne : s ≠ [] := by
    intro h
    have := hperm.length_eq
    rw [h] at this
    simp at this
  have hpos : 0 < s.length := List.length_pos.mpr hne
  have hmem : s.getD 0 0 ∈ s := by
    rw [List.getD_eq_getElem _ _ hpos]
    exact List.getElem_mem _
  apply le_antisymm
  · exact sorted_getD_zero_le s hs _ (hperm.symm.mem_iff.mp (foldl_min_mem xs x))
  · exact foldl_min_le xs x _ (hperm.mem_iff.mp hmem)

/-- The last element of the sorted list is Python's `max` of the data. -/
theorem sorted_getD_last_eq_max (x : ℚ) (xs : List ℚ) :
    ((x :: xs).insertionSort (· ≤ ·)).getD
      (((x :: xs).insertionSort (· ≤ ·)).length - 1) 0 = xs.foldl max x := by
  set s := (x :: xs).insertionSort (· ≤ ·) with hsdef
  have hs : s.Sorted (· ≤ ·) := List.sorted_insertionSort _ _
  have hperm : List.Perm s (x :: xs) := List.perm_insertionSort _ _
  have hne : s ≠ [] := by
    intro h
    have := hperm.length_eq
    rw [h] at this
    simp at this
  have hpos : 0 < s.length := List.length_pos.mpr hne
  have hmem : s.getD (s.length - 1) 0 ∈ s := by
    rw [List.getD_eq_getElem _ _ (by omega)]
    exact List.getElem_mem _
  apply le_antisymm
  · exact le_foldl_max xs x _ (hperm.mem_iff.mp hmem)
  · exact sorted_le_getD_last s hs _ (hperm.symm.mem_iff.mp (foldl_max_mem xs x))

/-- The interpolation function at rank 0 is the head of the sorted data. -/
theorem interpIdx_zero (s : List ℚ) : interpIdx s 0 = s.getD 0 0 := by
  simp only [interpIdx, Int.floor_zero]
  by_cases h : (0:ℤ) + 1 ≥ (s.length : ℤ)
  · rw [if_pos h]
    have : s.length = 0 ∨ s.length = 1 := by omega
    rcases this with h0 | h0 <;> simp [h0]
  · rw [if_neg h]
    norm_num

/-- The interpolation function at rank `n-1` is the last element. -/
theorem interpIdx_last (s : List ℚ) (hne : s ≠ []) :
    interpIdx s ((s.length : ℚ) - 1) = s.getD (s.length - 1) 0 := by
  have hpos : 0 < s.length := List.length_pos.mpr hne
  have hcast : ((s.length : ℚ) - 1) = (((s.length : ℤ) - 1 : ℤ) : ℚ) := by push_cast; ring
  simp only [interpIdx, hcast, Int.floor_intCast]
  have h : (s.length : ℤ) - 1 + 1 ≥ (s.length : ℤ) := by omega
  rw [if_pos h]

/-! ## Claim theorems for the percentile estimator -/

/-- C1: for every non-empty latency list and `p ∈ [0,100]`, `_percentile`
succeeds and equals the spec's linear-interpolation estimator: with the data
sorted ascending and `index = (p/100)*(n-1)`, `lower = floor(index)`,
`upper = lower+1`, `weight = index-lower`, the result is `data[n-1]` when
`upper ≥ n` and `data[lower]*(1-weight) + data[upper]*weight` otherwise. -/
theorem percentile_matches_spec_formula (data : List ℚ) (p : ℚ)
    (hne : data ≠ []) (hp0 : 0 ≤ p) (hp1 : p ≤ 100) :
    percentileE data p = .ok (percentileSpec data p) := by
  rw [percentileE_eq_interpIdx data p hne hp0, percentileSpec_eq_interpIdx]

/-- Witness for `percentile_matches_spec_formula` at `data = [1, 2]`, `p = 95`. -/
theorem percentile_matches_spec_formula_witness :
    (([1, 2] : List ℚ) ≠ []) ∧ ((0:ℚ) ≤ 95) ∧ ((95:ℚ) ≤ 100) ∧
    percentileE [1, 2] 95 = .ok (percentileSpec [1, 2] 95) :=
  ⟨by simp, by norm_num, by norm_num,
   percentile_matches_spec_formula [1, 2] 95 (by simp) (by norm_num) (by norm_num)⟩

/-- C5: for every non-empty list, `_percentile` at 100 is the maximum and at
0 the minimum of the data (including the single-element case, where `p = 100`
takes the clamp branch). -/
theorem percentile_100_eq_max_0_eq_min (x : ℚ) (xs : List ℚ) :
    percentileE (x :: xs) 100 = pyMaxE (x :: xs) ∧
    percentileE (x :: xs) 0 = pyMinE (x :: xs) := by
  have hne : (x :: xs) ≠ [] := List.cons_ne_nil x xs
  have hlen : ((x :: xs).insertionSort (· ≤ ·)).length = xs.length + 1 := by
    rw [List.length_insertionSort]; simp
  have hsne : (x :: xs).insertionSort (· ≤ ·) ≠ [] := by
    intro h; rw [h] at hlen; simp at hlen
  constructor
  · rw [percentileE_eq_interpIdx _ _ hne (by norm_num)]
    have h100 : ((100:ℚ) / 100) * ((((x :: xs).insertionSort (· ≤ ·)).length : ℚ) - 1) =
        (((x :: xs).insertionSort (· ≤ ·)).length : ℚ) - 1 := by norm_num
    rw [h100, interpIdx_last _ hsne, sorted_getD_last_eq_max]
    rfl
  · rw [percentileE_eq_interpIdx _ _ hne (le_refl 0)]
    have h0 : ((0:ℚ) / 100) * ((((x :: xs).insertionSort (· ≤ ·)).length : ℚ) - 1) = 0 := by
      norm_num
    rw [h0, interpIdx_zero, sorted_getD_zero_eq_min]
    rfl

/-- Counterexample to C3: on the empty list `_percentile` reaches Python's
list indexing and fails with an `IndexError` — an index fault, not a
`ValueError`/`StatisticsError`-style invalid-input error, and not an explicit
empty-sequence guard (none exists in the code). -/
theorem percentile_empty_invalid_input_cex :
    percentileE [] 95 = .error .indexError ∧
    PyErr.indexError ≠ PyErr.valueError ∧ PyErr.indexError ≠ PyErr.statisticsError := by
  refine ⟨?_, by decide, by decide⟩
  have h : pyInt ((95:ℚ) / 100 * ((List.length ([] : List ℚ) : ℚ) - 1)) + 1 ≥
      (List.length ([] : List ℚ) : ℤ) := by
    norm_num [pyInt]
    have hc : (-1 : ℤ) ≤ ⌈(-(19/20) : ℚ)⌉ := by
      have h2 := Int.le_ceil (-(19/20) : ℚ)
      have h3 : ((-1 : ℤ) : ℚ) ≤ (⌈(-(19/20) : ℚ)⌉ : ℚ) := by push_cast; linarith
      exact_mod_cast h3
    omega
  simp only [percentileE, List.insertionSort]
  rw [if_pos h, pyIndex_err_nil]

/-- C3 amended: `_percentile` on an empty sequence fails for every `p`, but
with an uncaught `IndexError` from the list indexing rather than an explicit
InvalidInput-style guard. -/
theorem percentile_empty_raises_index_fault (p : ℚ) :
    percentileE [] p = .error .indexError := by
  simp only [percentileE, List.insertionSort]
  by_cases h : pyInt ((p / 100) * ((List.length ([] : List ℚ) : ℚ) - 1)) + 1 ≥
      ((List.length ([] : List ℚ) : ℤ))
  · rw [if_pos h, pyIndex_err_nil]
  · rw [if_neg h, pyIndex_err_nil]
    rfl

/-- Python `statistics.median` on a nonempty list equals the percentile
interpolation function at rank `(n-1)/2` (the 50th percentile rank). -/
theorem pyMedian_eq_interpIdx (x : ℚ) (xs : List ℚ) :
    pyMedian (x :: xs) = .ok (interpIdx ((x :: xs).insertionSort (· ≤ ·))
      ((((x :: xs).length : ℚ) - 1) / 2)) := by
  have hlen : ((x :: xs).insertionSort (· ≤ ·)).length = (x :: xs).length :=
    List.length_insertionSort _ _
  set s := (x :: xs).insertionSort (· ≤ ·) with hs
  set L := (x :: xs).length with hL
  have hLpos : 0 < L := by rw [hL]; simp
  simp only [pyMedian]
  rw [if_neg (by omega : ¬ L = 0)]
  rcases Nat.even_or_odd L with ⟨m, hm⟩ | ⟨m, hm⟩
  · -- L = m + m, so m ≥ 1
    have hm1 : 1 ≤ m := by omega
    have hfl : ⌊(((L:ℚ) - 1) / 2)⌋ = (m:ℤ) - 1 := by
      rw [Int.floor_eq_iff]
      constructor
      · push_cast [hm]; linarith
      · push_cast [hm]; linarith
    rw [if_neg (by omega : ¬ L % 2 = 1)]
    simp only [interpIdx, hfl]
    rw [if_neg (by rw [hlen]; omega : ¬ ((m:ℤ) - 1 + 1 ≥ (s.length : ℤ)))]
    have ht1 : ((m:ℤ) - 1).toNat = m - 1 := by omega
    have ht2 : ((m:ℤ) - 1 + 1).toNat = m := by omega
    have hw : (((L:ℚ) - 1) / 2) - (((m:ℤ) - 1 : ℤ) : ℚ) = 1 / 2 := by
      push_cast [hm]; ring
    rw [ht1, ht2, hw]
    have hd1 : L / 2 - 1 = m - 1 := by omega
    have hd2 : L / 2 = m := by omega
    rw [hd1, hd2]
    congr 1
    ring
  · -- L = 2 * m + 1
    have hq : (((L:ℚ) - 1) / 2) = ((m:ℕ) : ℚ) := by push_cast [hm]; ring
    rw [if_pos (by omega : L % 2 = 1)]
    rw [hq]
    simp only [interpIdx, Int.floor_natCast]
    by_cases hm0 : m = 0
    · rw [if_pos (by rw [hlen]; omega : ((m:ℤ) + 1 ≥ (s.length : ℤ)))]
      have : L / 2 = s.length - 1 := by rw [hlen]; omega
      rw [this]
    · rw [if_neg (by rw [hlen]; omega : ¬ ((m:ℤ) + 1 ≥ (s.length : ℤ)))]
      have ht1 : ((m:ℕ):ℤ).toNat = m := by omega
      have ht2 : (((m:ℕ):ℤ) + 1).toNat = m + 1 := by omega
      have hw : ((m:ℕ):ℚ) - (((m:ℕ):ℤ):ℚ) = 0 := by push_cast; ring
      rw [ht1, ht2, hw]
      have hd : L / 2 = m := by omega
      rw [hd]
      congr 1
      ring

/-- A lower bound on all elements gives a lower bound on the sum. -/
theorem mul_length_le_sum (l : List ℚ) (a : ℚ) (h : ∀ y ∈ l, a ≤ y) :
    a * (l.length : ℚ) ≤ l.sum := by
  induction l with
  | nil => simp
  | cons z zs ih =>
    have hz : a ≤ z := h z (List.mem_cons_self _ _)
    have hzs := ih (fun y hy => h y (List.mem_cons_of_mem _ hy))
    simp only [List.sum_cons, List.length_cons]
    push_cast
    nlinarith

/-- An upper bound on all elements gives an upper bound on the sum. -/
theorem sum_le_mul_length (l : List ℚ) (a : ℚ) (h : ∀ y ∈ l, y ≤ a) :
    l.sum ≤ a * (l.length : ℚ) := by
  induction l with
  | nil => simp
  | cons z zs ih =>
    have hz : z ≤ a := h z (List.mem_cons_self _ _)
    have hzs := ih (fun y hy => h y (List.mem_cons_of_mem _ hy))
    simp only [List.sum_cons, List.length_cons]
    push_cast
    nlinarith

/-- C4: for every non-empty latency sequence, the results record built by
`run_benchmark` satisfies `min ≤ median ≤ max`, `min ≤ mean ≤ max` and
`p99 ≥ p95 ≥ median`. -/
theorem run_benchmark_stats_invariants (k : ℕ) (mrt : ℚ) (x : ℚ) (xs : List ℚ) :
    ∃ r, run_benchmark_stats k mrt (x :: xs) = .ok r ∧
      r.min ≤ r.median ∧ r.median ≤ r.max ∧
      r.min ≤ r.mean ∧ r.mean ≤ r.max ∧
      r.median ≤ r.p95 ∧ r.p95 ≤ r.p99 := by
  have hlen : ((x :: xs).insertionSort (· ≤ ·)).length = (x :: xs).length :=
    List.length_insertionSort _ _
  set s := (x :: xs).insertionSort (· ≤ ·) with hsdef
  have hsrt : s.Sorted (· ≤ ·) := List.sorted_insertionSort _ _
  have hperm : List.Perm s (x :: xs) := List.perm_insertionSort _ _
  have hsne : s ≠ [] := by
    intro h
    rw [h] at hlen
    simp at hlen
  have hne : (x :: xs) ≠ [] := List.cons_ne_nil x xs
  have hL1 : (1:ℚ) ≤ ((x :: xs).length : ℚ) := by
    have : 0 < (x :: xs).length := by simp
    exact_mod_cast this
  have hsL1 : (1:ℚ) ≤ ((s.length : ℕ) : ℚ) := by rw [hlen]; exact hL1
  -- the six statistic values
  have hmean : pyMean (x :: xs) = .ok ((x :: xs).sum / (((x :: xs).length : ℕ) : ℚ)) := by
    rw [pyMean, if_neg (by simp)]
  have hmed : pyMedian (x :: xs) =
      .ok (interpIdx s ((((x :: xs).length : ℚ) - 1) / 2)) := pyMedian_eq_interpIdx x xs
  have hmin : pyMinE (x :: xs) = .ok (xs.foldl min x) := rfl
  have hmax : pyMaxE (x :: xs) = .ok (xs.foldl max x) := rfl
  have hp95 : percentileE (x :: xs) 95 =
      .ok (interpIdx s ((95 / 100) * ((((x :: xs).length : ℚ)) - 1))) := by
    rw [percentileE_eq_interpIdx _ _ hne (by norm_num), ← hsdef, hlen]
  have hp99 : percentileE (x :: xs) 99 =
      .ok (interpIdx s ((99 / 100) * ((((x :: xs).length : ℚ)) - 1))) := by
    rw [percentileE_eq_interpIdx _ _ hne (by norm_num), ← hsdef, hlen]
  refine ⟨{ num_iterations := k, mock_response_time := mrt, latencies := x :: xs,
            mean := (x :: xs).sum / (((x :: xs).length : ℕ) : ℚ),
            median := interpIdx s ((((x :: xs).length : ℚ) - 1) / 2),
            stdevSq := if 1 < (x :: xs).length then sampleVariance (x :: xs) else 0,
            min := xs.foldl min x, max := xs.foldl max x,
            p95 := interpIdx s ((95 / 100) * ((((x :: xs).length : ℚ)) - 1)),
            p99 := interpIdx s ((99 / 100) * ((((x :: xs).length : ℚ)) - 1)) },
    ?_, ?_, ?_, ?_, ?_, ?_, ?_⟩
  · simp only [run_benchmark_stats, hmean, hmed, hmin, hmax, hp95, hp99, Except.bind, bind]
    rfl
  -- invariants, on the explicit record
  · -- min ≤ median
    show xs.foldl min x ≤ interpIdx s ((((x :: xs).length : ℚ) - 1) / 2)
    rw [← sorted_getD_zero_eq_min, ← hsdef, ← interpIdx_zero]
    exact interpIdx_mono s hsrt hsne _ _ (le_refl 0) (by linarith)
  · -- median ≤ max
    show interpIdx s ((((x :: xs).length : ℚ) - 1) / 2) ≤ xs.foldl max x
    rw [← sorted_getD_last_eq_max, ← hsdef, ← hlen, ← interpIdx_last s hsne]
    exact interpIdx_mono s hsrt hsne _ _ (by linarith [hsL1]) (by rw [hlen]; linarith)
  · -- min ≤ mean
    show xs.foldl min x ≤ (x :: xs).sum / (((x :: xs).length : ℕ) : ℚ)
    rw [le_div_iff₀ (by linarith : (0:ℚ) < (((x :: xs).length : ℕ) : ℚ))]
    exact mul_length_le_sum _ _ (foldl_min_le xs x)
  · -- mean ≤ max
    show (x :: xs).sum / (((x :: xs).length : ℕ) : ℚ) ≤ xs.foldl max x
    rw [div_le_iff₀ (by linarith : (0:ℚ) < (((x :: xs).length : ℕ) : ℚ))]
    exact sum_le_mul_length _ _ (le_foldl_max xs x)
  · -- median ≤ p95
    show interpIdx s ((((x :: xs).length : ℚ) - 1) / 2) ≤
      interpIdx s ((95 / 100) * ((((x :: xs).length : ℚ)) - 1))
    exact interpIdx_mono s hsrt hsne _ _ (by linarith) (by nlinarith)
  · -- p95 ≤ p99
    show interpIdx s ((95 / 100) * ((((x :: xs).length : ℚ)) - 1)) ≤
      interpIdx s ((99 / 100) * ((((x :: xs).length : ℚ)) - 1))
    exact interpIdx_mono s hsrt hsne _ _ (by nlinarith) (by nlinarith)

end LLMChess
